import Mathlib

/-!
A verification development for the PowerSync native client core.

Each section embeds one part of the Rust source as executable Lean
definitions (lists for SQL tables, explicit state records for actors,
oracles for the external SQL / HTTP collaborators) and proves the
corresponding testable properties of the specification.
-/

namespace PowerSync

/-! ## BSON framer (src/powersync/src/util/bson_split.rs)

`BsonObjects` splits an `AsyncBufRead` into raw BSON frames by reading the
little-endian 32-bit length prefix of every document.  Bytes are modelled as
`Nat` values below 256. -/

/-- `RemainingBytes` from `bson_split.rs`: how many bytes are still missing
for the size header currently being read (`forSize`) or for the body of the
object currently being read (`forObject`).  The initial state (`Default`)
is `forSize 4`. -/
inductive RemainingBytes where
  | forSize (n : Nat)
  | forObject (n : Nat)
  deriving Repr, DecidableEq

namespace RemainingBytes

/-- `RemainingBytes::consume(max)`: reads at most `max` bytes towards the
pending count, returning `(bytes_read, pending_count_reached_zero, new_state)`. -/
def consume : RemainingBytes → Nat → Nat × Bool × RemainingBytes
  | forSize n, max =>
      let readable := min n max
      (readable, decide (n - readable = 0), forSize (n - readable))
  | forObject n, max =>
      let readable := min n max
      (readable, decide (n - readable = 0), forObject (n - readable))

/-- `RemainingBytes::is_idle`: true exactly when no byte of the next frame
has been consumed yet (`ForSize(4)`). -/
def isIdle : RemainingBytes → Bool
  | forSize 4 => true
  | _ => false

end RemainingBytes

/-- Errors produced by the framer: `InvalidData` for a length header below 5,
`UnexpectedEof` when the stream ends inside a header or object. -/
inductive FramerError where
  | invalidData
  | unexpectedEof
  deriving Repr, DecidableEq

/-- The outcome of one `BsonObjects::process_bytes` call
(`Poll<Option<io::Result<Vec<u8>>>>`). -/
inductive PollResult where
  | pending
  | readyNone
  | readyErr (e : FramerError)
  | readyOk (frame : List Nat)
  deriving Repr, DecidableEq

/-- Result of `process_bytes`: the poll result together with the updated
accumulation buffer (`target`), the updated `remaining` state and the number
of consumed input bytes. -/
structure ProcessResult where
  result : PollResult
  target : List Nat
  remaining : RemainingBytes
  consumed : Nat
  deriving Repr, DecidableEq

/-- The unsigned little-endian 32-bit value of the first four accumulated
header bytes (`i32::from_le_bytes` before sign interpretation). -/
def leU32 (bs : List Nat) : Nat :=
  (bs.getD 0 0 + 256 * bs.getD 1 0 + 65536 * bs.getD 2 0 + 16777216 * bs.getD 3 0) % 2 ^ 32

/-- Reinterpret an unsigned 32-bit value as a two's-complement `i32`. -/
def asI32 (u : Nat) : Int :=
  if u < 2 ^ 31 then (u : Int) else (u : Int) - 2 ^ 32

/-- `BsonObjects::process_bytes`.  The Rust `loop` body runs at most twice per
call (the `continue` is only reachable from the size-header transition), so it
is unrolled here: an empty buffer is the end-of-stream check, otherwise one
`consume` step runs, followed by a second one when a size header was just
completed. -/
def processBytes (target : List Nat) (remaining : RemainingBytes) (buf : List Nat) :
    ProcessResult :=
  if buf.isEmpty then
    -- End of stream. This is an error if we were in the middle of an object.
    if remaining.isIdle then ⟨.readyNone, target, remaining, 0⟩
    else ⟨.readyErr .unexpectedEof, target, remaining, 0⟩
  else
    let step₁ := remaining.consume buf.length
    let read₁ := step₁.1
    let target₁ := target ++ buf.take read₁
    let buf₁ := buf.drop read₁
    if !step₁.2.1 then ⟨.pending, target₁, step₁.2.2, read₁⟩
    else
      match step₁.2.2 with
      | .forSize _ =>
          -- Done reading the size header; it counts its own four bytes.
          let size := asI32 (leU32 target₁)
          if size < 5 then ⟨.readyErr .invalidData, target₁, step₁.2.2, read₁⟩
          else
            let rem₂ := RemainingBytes.forObject (size.toNat - 4)
            let step₂ := rem₂.consume buf₁.length
            let read₂ := step₂.1
            let target₂ := target₁ ++ buf₁.take read₂
            if !step₂.2.1 then ⟨.pending, target₂, step₂.2.2, read₁ + read₂⟩
            else ⟨.readyOk target₂, [], .forSize 4, read₁ + read₂⟩
      | .forObject _ => ⟨.readyOk target₁, [], .forSize 4, read₁⟩

/-- How a framed stream terminates: clean end-of-stream or an error. -/
inductive Terminal where
  | endOfStream
  | err (e : FramerError)
  deriving Repr, DecidableEq

theorem processBytes_consumed_pos (input : List Nat) (f t : List Nat)
    (r : RemainingBytes) (c : Nat)
    (h : processBytes [] (.forSize 4) input = ⟨.readyOk f, t, r, c⟩) :
    1 ≤ c ∧ input ≠ [] := by
  rcases input with _ | ⟨b, bs⟩
  · simp [processBytes, RemainingBytes.isIdle] at h
  · refine ⟨?_, by simp⟩
    simp only [processBytes, List.isEmpty_cons, Bool.false_eq_true, if_false,
      RemainingBytes.consume] at h
    repeat' split at h
    all_goals simp only [ProcessResult.mk.injEq] at h
    all_goals rw [← h.2.2.2]
    all_goals simp only [List.length_cons]
    all_goals omega

/-- The `Stream` driver of `BsonObjects::poll_next`, run over a complete
input.  `poll_fill_buf` always returns the whole unconsumed input (as the
slice-backed readers used in the repository do); when `process_bytes` returns
`Pending` the input is exhausted, so the next fill returns an empty buffer and
the end-of-stream branch of `process_bytes` decides between a clean end and an
`UnexpectedEof` error.  After each emitted frame, `target` is empty and
`remaining` is back to `ForSize(4)`, so the driver restarts from the initial
state on the unconsumed input. -/
def collectFrames (input : List Nat) : List (List Nat) × Terminal :=
  match h : processBytes [] (.forSize 4) input with
  | ⟨.readyOk f, _, _, consumed⟩ =>
      let rest := collectFrames (input.drop consumed)
      (f :: rest.1, rest.2)
  | ⟨.pending, _, rem, _⟩ =>
      ([], if rem.isIdle then .endOfStream else .err .unexpectedEof)
  | ⟨.readyNone, _, _, _⟩ => ([], .endOfStream)
  | ⟨.readyErr e, _, _, _⟩ => ([], .err e)
termination_by input.length
decreasing_by
  obtain ⟨hc, hne⟩ := processBytes_consumed_pos input f _ _ _ h
  have hlen : 0 < input.length := List.length_pos.mpr hne
  simp only [List.length_drop]
  omega

/-- The four little-endian bytes of a 32-bit length header. -/
def encodeLE32 (n : Nat) : List Nat :=
  [n % 256, n / 256 % 256, n / 65536 % 256, n / 16777216 % 256]

/-- A well-formed BSON frame as transmitted over the wire: a byte sequence at
least 5 bytes long (and shorter than `2^31`, the positive `i32` range of the
header) whose first four bytes encode its own total length, little-endian. -/
def ValidFrame (f : List Nat) : Prop :=
  5 ≤ f.length ∧ f.length < 2 ^ 31 ∧ (∀ b ∈ f, b < 256) ∧ f.take 4 = encodeLE32 f.length

instance : DecidablePred ValidFrame := fun f => by unfold ValidFrame; infer_instance

theorem leU32_encodeLE32 (n : Nat) (h : n < 2 ^ 32) : leU32 (encodeLE32 n) = n := by
  simp only [leU32, encodeLE32, List.getD_cons_zero, List.getD_cons_succ]
  omega

theorem asI32_of_lt (u : Nat) (h : u < 2 ^ 31) : asI32 u = u := by
  unfold asI32
  rw [if_pos h]

/-- Feeding a valid frame (plus arbitrary following bytes) to `process_bytes`
from the initial state yields exactly that frame — length header included —
and consumes exactly the frame's bytes, returning to the initial state. -/
theorem processBytes_validFrame (f rest : List Nat) (hf : ValidFrame f) :
    processBytes [] (.forSize 4) (f ++ rest) = ⟨.readyOk f, [], .forSize 4, f.length⟩ := by
  obtain ⟨h5, h31, -, hhdr⟩ := hf
  have hfl : 4 ≤ f.length := by omega
  have hne : (f ++ rest).isEmpty = false := by
    rcases f with _ | ⟨x, xs⟩
    · simp at h5
    · simp
  have hminlen : 4 ⊓ (f.length + rest.length) = 4 := by omega
  have htake4 : (f ++ rest).take 4 = encodeLE32 f.length := by
    rw [List.take_append_of_le_length hfl, hhdr]
  have hsize : asI32 (leU32 (encodeLE32 f.length)) = (f.length : Int) := by
    rw [leU32_encodeLE32 f.length (by omega), asI32_of_lt _ h31]
  have h5' : ¬((f.length : Int) < 5) := by omega
  have hdrop4 : (f ++ rest).drop 4 = f.drop 4 ++ rest := List.drop_append_of_le_length hfl
  have hmin2 : (f.length - 4) ⊓ (f.length + rest.length - 4) = f.length - 4 := by omega
  have htake2 : (f.drop 4 ++ rest).take (f.length - 4) = f.drop 4 :=
    List.take_left' (by simp)
  have hjoin : encodeLE32 f.length ++ f.drop 4 = f := by
    rw [← hhdr]; exact List.take_append_drop 4 f
  have hconsumed : 4 + (f.length - 4) = f.length := by omega
  simp [processBytes, hne, RemainingBytes.consume, hminlen, htake4, hsize,
    h5', hdrop4, hmin2, htake2, hjoin, hconsumed]

theorem isIdle_forSize (n : Nat) :
    (RemainingBytes.forSize n).isIdle = decide (n = 4) := by
  rcases n with _|_|_|_|n
  · rfl
  · rfl
  · rfl
  · rfl
  · rcases n with _|n <;> rfl

theorem isIdle_forObject (n : Nat) : (RemainingBytes.forObject n).isIdle = false := rfl

theorem collectFrames_readyOk (input f t : List Nat) (r : RemainingBytes) (c : Nat)
    (h : processBytes [] (.forSize 4) input = ⟨.readyOk f, t, r, c⟩) :
    collectFrames input =
      (f :: (collectFrames (input.drop c)).1, (collectFrames (input.drop c)).2) := by
  rw [collectFrames]
  split
  all_goals rename_i h'
  all_goals rw [h] at h'
  all_goals simp at h'
  obtain ⟨h1, h2, h3, h4⟩ := h'
  subst h1 h4
  rfl

theorem collectFrames_pending (input t : List Nat) (rem : RemainingBytes) (c : Nat)
    (h : processBytes [] (.forSize 4) input = ⟨.pending, t, rem, c⟩) :
    collectFrames input =
      ([], if rem.isIdle then .endOfStream else .err .unexpectedEof) := by
  rw [collectFrames]
  split
  all_goals rename_i h'
  all_goals rw [h] at h'
  all_goals simp at h'
  obtain ⟨h2, h3, h4⟩ := h'
  subst h3
  rfl

theorem collectFrames_readyNone (input t : List Nat) (rem : RemainingBytes) (c : Nat)
    (h : processBytes [] (.forSize 4) input = ⟨.readyNone, t, rem, c⟩) :
    collectFrames input = ([], .endOfStream) := by
  rw [collectFrames]
  split
  all_goals rename_i h'
  all_goals rw [h] at h'
  all_goals simp at h'

theorem collectFrames_readyErr (input t : List Nat) (rem : RemainingBytes) (c : Nat)
    (e : FramerError)
    (h : processBytes [] (.forSize 4) input = ⟨.readyErr e, t, rem, c⟩) :
    collectFrames input = ([], .err e) := by
  rw [collectFrames]
  split
  all_goals rename_i h'
  all_goals rw [h] at h'
  all_goals simp at h'
  obtain ⟨h1, h2, h3, h4⟩ := h'
  subst h1
  rfl

theorem collectFrames_nil : collectFrames [] = ([], .endOfStream) :=
  collectFrames_readyNone [] [] (.forSize 4) 0 (by simp [processBytes, RemainingBytes.isIdle])

/-- The framer peels one valid frame off the front of the input and restarts
on the rest. -/
theorem collectFrames_cons (f rest : List Nat) (hf : ValidFrame f) :
    collectFrames (f ++ rest) = ((f :: (collectFrames rest).1, (collectFrames rest).2)) := by
  rw [collectFrames_readyOk (f ++ rest) f [] (.forSize 4) f.length
    (processBytes_validFrame f rest hf), List.drop_left]

theorem collectFrames_flatten_append (frames : List (List Nat))
    (h : ∀ f ∈ frames, ValidFrame f) (tail : List Nat) :
    collectFrames (frames.flatten ++ tail) =
      (frames ++ (collectFrames tail).1, (collectFrames tail).2) := by
  induction frames with
  | nil => simp
  | cons f fs ih =>
      have hf := h f (by simp)
      have hfs : ∀ g ∈ fs, ValidFrame g := fun g hg => h g (by simp [hg])
      rw [List.flatten_cons, List.append_assoc, collectFrames_cons f _ hf, ih hfs]
      simp

/-- A size header below 5 (or negative, as a signed 32-bit value) makes the
framer report invalid data as soon as the four header bytes are read. -/
theorem collectFrames_badHeader (hdr rest : List Nat) (h4 : hdr.length = 4)
    (hbad : asI32 (leU32 hdr) < 5) :
    collectFrames (hdr ++ rest) = ([], .err .invalidData) := by
  have hne : (hdr ++ rest).isEmpty = false := by
    rcases hdr with _ | ⟨x, xs⟩
    · simp at h4
    · simp
  have hminlen : 4 ⊓ (hdr.length + rest.length) = 4 := by omega
  have htake4 : (hdr ++ rest).take 4 = hdr := List.take_left' h4
  exact collectFrames_readyErr (hdr ++ rest) hdr (.forSize 0) 4 .invalidData
    (by simp [processBytes, hne, RemainingBytes.consume, hminlen, htake4, hbad])

/-- An input that ends in the middle of a four-byte length header makes the
framer report an unexpected end of stream. -/
theorem collectFrames_midHeader (cut : List Nat) (h1 : 1 ≤ cut.length)
    (h3 : cut.length ≤ 3) :
    collectFrames cut = ([], .err .unexpectedEof) := by
  have hne : cut.isEmpty = false := by
    rcases cut with _ | ⟨x, xs⟩
    · simp at h1
    · simp
  have hminlen : 4 ⊓ cut.length = cut.length := by omega
  have hswitch : ¬(4 - cut.length = 0) := by omega
  rw [collectFrames_pending cut cut (.forSize (4 - cut.length)) cut.length
    (by simp [processBytes, hne, RemainingBytes.consume, hminlen, hswitch])]
  rw [isIdle_forSize]
  simp [show ¬(4 - cut.length = 4) from by omega]

/-- An input that ends in the middle of an object body makes the framer
report an unexpected end of stream. -/
theorem collectFrames_midBody (hdr body : List Nat) (h4 : hdr.length = 4)
    (hge : 5 ≤ asI32 (leU32 hdr))
    (hshort : body.length < (asI32 (leU32 hdr)).toNat - 4) :
    collectFrames (hdr ++ body) = ([], .err .unexpectedEof) := by
  have hne : (hdr ++ body).isEmpty = false := by
    rcases hdr with _ | ⟨x, xs⟩
    · simp at h4
    · simp
  have hminlen : 4 ⊓ (hdr.length + body.length) = 4 := by omega
  have htake4 : (hdr ++ body).take 4 = hdr := List.take_left' h4
  have hdrop4 : (hdr ++ body).drop 4 = body := List.drop_left' h4
  have hnotlt : ¬(asI32 (leU32 hdr) < 5) := by omega
  have hmin2 : ((asI32 (leU32 hdr)).toNat - 4) ⊓ body.length = body.length := by omega
  have hswitch : ¬((asI32 (leU32 hdr)).toNat - 4 - body.length = 0) := by omega
  rw [collectFrames_pending (hdr ++ body) (hdr ++ body)
    (.forObject ((asI32 (leU32 hdr)).toNat - 4 - body.length)) (4 + body.length)
    (by simp [processBytes, hne, RemainingBytes.consume, hminlen, htake4, hdrop4, hnotlt,
      hmin2, hswitch])]
  rw [isIdle_forObject]
  simp

/-- C1: the BSON framer (`BsonObjects` over a byte stream) satisfies the
round-trip law: every byte sequence that is a concatenation of valid BSON
frames (each a 32-bit little-endian length prefix counting its own 4 bytes,
followed by `length - 4` payload bytes) is split by the framer into exactly
that sequence of frames, each including its 4 length bytes, ending in a
clean end-of-stream; a frame whose signed length header is below 5 yields an
invalid-data error; an input ending in the middle of a length header or of a
frame body yields an unexpected-end-of-stream error. -/
theorem bson_framer_round_trip (frames : List (List Nat))
    (hv : ∀ f ∈ frames, ValidFrame f) :
    collectFrames frames.flatten = (frames, .endOfStream) ∧
    (∀ hdr rest, hdr.length = 4 → asI32 (leU32 hdr) < 5 →
      collectFrames (frames.flatten ++ (hdr ++ rest)) = (frames, .err .invalidData)) ∧
    (∀ cut, 1 ≤ cut.length → cut.length ≤ 3 →
      collectFrames (frames.flatten ++ cut) = (frames, .err .unexpectedEof)) ∧
    (∀ hdr body, hdr.length = 4 → 5 ≤ asI32 (leU32 hdr) →
      body.length < (asI32 (leU32 hdr)).toNat - 4 →
      collectFrames (frames.flatten ++ (hdr ++ body)) = (frames, .err .unexpectedEof)) := by
  refine ⟨?_, ?_, ?_, ?_⟩
  · have h := collectFrames_flatten_append frames hv []
    simpa [collectFrames_nil] using h
  · intro hdr rest h4 hbad
    rw [collectFrames_flatten_append frames hv (hdr ++ rest),
      collectFrames_badHeader hdr rest h4 hbad]
    simp
  · intro cut h1 h3
    rw [collectFrames_flatten_append frames hv cut, collectFrames_midHeader cut h1 h3]
    simp
  · intro hdr body h4 hge hshort
    rw [collectFrames_flatten_append frames hv (hdr ++ body),
      collectFrames_midBody hdr body h4 hge hshort]
    simp

/-- Witness for C1: the round-trip law evaluated on two concrete frames, and
the invalid-size error on a header declaring only 3 bytes. -/
theorem bson_framer_round_trip_witness :
    collectFrames ([[5, 0, 0, 0, 9], [6, 0, 0, 0, 7, 8]].flatten) =
      ([[5, 0, 0, 0, 9], [6, 0, 0, 0, 7, 8]], .endOfStream) ∧
    collectFrames ([[5, 0, 0, 0, 9]].flatten ++ ([3, 0, 0, 0] ++ [])) =
      ([[5, 0, 0, 0, 9]], .err .invalidData) := by
  constructor
  · exact (bson_framer_round_trip [[5, 0, 0, 0, 9], [6, 0, 0, 0, 7, 8]] (by decide)).1
  · exact (bson_framer_round_trip [[5, 0, 0, 0, 9]] (by decide)).2.1 [3, 0, 0, 0] []
      (by decide) (by decide)

/-! ## CRUD completion (src/powersync/src/db/internal.rs)

`InnerPowerSyncState::complete_crud_items` runs one writer transaction that
deletes acknowledged `ps_crud` rows and updates the `$local` bucket's
`target_op`.  The two internal tables are modelled as ordered row lists:
`ps_crud` as `(id, data)` pairs and `ps_buckets` as `(name, target_op)`
pairs. -/

/-- `MAX_OP_ID` (i64 max). -/
def MAX_OP_ID : Int := 9223372036854775807

/-- The slice of database state touched by `complete_crud_items`. -/
structure CrudDbState where
  psCrud : List (Int × String)
  psBuckets : List (String × Int)
  deriving Repr, DecidableEq

/-- `InnerPowerSyncState::complete_crud_items(last_client_id, write_checkpoint)`:
in one transaction, `DELETE FROM ps_crud WHERE id <= ?`, then compute the new
`target_op` (defaulting to `MAX_OP_ID`, replaced by the checkpoint only when
one was supplied and `ps_crud` is empty after the deletion), and finally
`UPDATE ps_buckets SET target_op = ? WHERE name = '$local'`. -/
def complete_crud_items (st : CrudDbState) (last_client_id : Int)
    (write_checkpoint : Option Int) : CrudDbState :=
  let crud := st.psCrud.filter (fun r => !(r.1 ≤ last_client_id))
  let targetOp : Int :=
    match write_checkpoint with
    | some checkpoint => if crud.isEmpty then checkpoint else MAX_OP_ID
    | none => MAX_OP_ID
  { psCrud := crud
    psBuckets := st.psBuckets.map (fun b => if b.1 = "$local" then (b.1, targetOp) else b) }

/-- C3: `complete_crud_items(last_client_id, write_checkpoint)` deletes
exactly the `ps_crud` rows with `id ≤ last_client_id` (rows with larger ids
survive unchanged, in order), and sets `target_op` of every `$local` row of
`ps_buckets` to the provided checkpoint when one is given and `ps_crud` is
empty after the deletion, and to `MAX_OP_ID` in every other case; buckets
other than `$local` are untouched. -/
theorem complete_crud_items_spec (st : CrudDbState) (last_client_id : Int)
    (write_checkpoint : Option Int) :
    (complete_crud_items st last_client_id write_checkpoint).psCrud =
      st.psCrud.filter (fun r => last_client_id < r.1) ∧
    (∀ r ∈ st.psCrud, r.1 ≤ last_client_id →
      r ∉ (complete_crud_items st last_client_id write_checkpoint).psCrud) ∧
    (complete_crud_items st last_client_id write_checkpoint).psBuckets =
      st.psBuckets.map (fun b =>
        if b.1 = "$local" then
          (b.1,
            match write_checkpoint with
            | some checkpoint =>
                if st.psCrud.filter (fun r => last_client_id < r.1) = [] then checkpoint
                else MAX_OP_ID
            | none => MAX_OP_ID)
        else b) := by
  have hfilter : (fun (r : Int × String) => !(r.1 ≤ last_client_id)) =
      (fun r => decide (last_client_id < r.1)) := by
    funext r
    by_cases h : r.1 ≤ last_client_id
    · simp [h, show ¬(last_client_id < r.1) from by omega]
    · simp [h, show last_client_id < r.1 from by omega]
  refine ⟨?_, ?_, ?_⟩
  · simp [complete_crud_items, hfilter]
  · intro r hr hle
    simp only [complete_crud_items, hfilter, List.mem_filter]
    rintro ⟨-, habs⟩
    simp only [decide_eq_true_eq] at habs
    omega
  · simp only [complete_crud_items, hfilter]
    rcases write_checkpoint with - | checkpoint
    · rfl
    · simp only [List.isEmpty_iff]

/-- Witness for C3 at a concrete database state. -/
theorem complete_crud_items_spec_witness :
    ((1 : Int), "a") ∉
      (complete_crud_items ⟨[(1, "a"), (3, "c")], [("$local", MAX_OP_ID)]⟩ 2 (some 42)).psCrud :=
  (complete_crud_items_spec ⟨[(1, "a"), (3, "c")], [("$local", MAX_OP_ID)]⟩ 2 (some 42)).2.1
    (1, "a") (by decide) (by decide)

/-! ## Connection pool (src/powersync/src/db/pool.rs) -/

/-- A value set through `Connection::pragma_update`. -/
inductive PragmaValue where
  | text (s : String)
  | int (n : Int)
  | bool (b : Bool)
  deriving Repr, DecidableEq

/-- The connection configuration performed by `ConnectionPool::open`: the
pragmas applied to the writer, the number of reader connections opened
against the same file, and the pragmas applied to each reader. -/
structure PoolOpenConfig where
  writerPragmas : List (String × PragmaValue)
  readerCount : Nat
  readerPragmas : List (String × PragmaValue)
  deriving Repr, DecidableEq

/-- `ConnectionPool::open` in multi-connection mode: the writer is configured
with four pragma updates, then five readers are opened on the same path,
each marked `query_only`. -/
def ConnectionPool.openConfig : PoolOpenConfig where
  writerPragmas :=
    [("journal_mode", .text "WAL"),
     ("journal_size_limit", .int (6 * 1024 * 1024)),
     ("busy_timeout", .int 30000),
     ("cache_size", .int (50 * 1024))]
  readerCount := 5
  readerPragmas := [("query_only", .bool true)]

/-- C8: `ConnectionPool::open` configures the writer with `journal_mode=WAL`,
a journal size limit of 6 MiB (in bytes), a busy timeout of 30 seconds (in
milliseconds) and a cache-size setting amounting to 50 MiB (the value 51200,
at the 1 KiB granularity of the setting), opens 5 reader connections against
the same file, and marks every reader `query_only`. -/
theorem connection_pool_open_spec :
    ConnectionPool.openConfig.writerPragmas =
      [("journal_mode", .text "WAL"),
       ("journal_size_limit", .int 6291456),
       ("busy_timeout", .int 30000),
       ("cache_size", .int 51200)] ∧
    (6291456 : Int) = 6 * 1024 * 1024 ∧
    (30000 : Int) = 30 * 1000 ∧
    (51200 : Int) * 1024 = 50 * 1024 * 1024 ∧
    ConnectionPool.openConfig.readerCount = 5 ∧
    ConnectionPool.openConfig.readerPragmas = [("query_only", .bool true)] := by
  refine ⟨rfl, by norm_num, by norm_num, by norm_num, rfl, rfl⟩

/-! ## Status model (src/powersync/src/sync/status.rs)

`SyncStatus` stores an `Arc<SyncStatusData>` behind a mutex; `update`
replaces it with a fresh revision and fires the replaced snapshot's
invalidation signal.  The model is parametric in the downloading payload `D`
(for `Arc<DownloadSyncStatus>`) and the error type `E` (for
`PowerSyncError`), neither of which the status layer inspects.  Each
snapshot carries its `is_invalidated` atomic flag and a count of the
notifications fired on its `invalidated` event. -/

/-- `UploadStatus`: `Idle` (the default), `Uploading`, or `Error(e)`. -/
inductive UploadStatus (E : Type) where
  | idle
  | uploading
  | error (e : E)
  deriving Repr, DecidableEq

/-- `SyncStatusData`. -/
structure SyncStatusData (D E : Type) where
  downloading : D
  downloadError : Option E
  uploads : UploadStatus E
  isInvalidated : Bool
  notifyCount : Nat
  deriving Repr, DecidableEq

/-- `SyncStatusData::default()`: the initial snapshot. -/
def SyncStatusData.init {D E : Type} (d : D) : SyncStatusData D E :=
  ⟨d, none, .idle, false, 0⟩

/-- `SyncStatusData::new_revision`: clones `downloading` and
`download_error`, and resets `uploads`, `is_invalidated` and the
`invalidated` event to their defaults. -/
def SyncStatusData.new_revision {D E : Type} (s : SyncStatusData D E) : SyncStatusData D E :=
  { downloading := s.downloading
    downloadError := s.downloadError
    uploads := .idle
    isInvalidated := false
    notifyCount := 0 }

/-- `SyncStatusData::update_from_core`. -/
def SyncStatusData.update_from_core {D E : Type} (core : D) (s : SyncStatusData D E) :
    SyncStatusData D E :=
  { s with downloading := core }

/-- `SyncStatusData::set_download_error`. -/
def SyncStatusData.set_download_error {D E : Type} (e : E) (s : SyncStatusData D E) :
    SyncStatusData D E :=
  { s with downloadError := some e }

/-- `SyncStatusData::clear_download_errors`. -/
def SyncStatusData.clear_download_errors {D E : Type} (s : SyncStatusData D E) :
    SyncStatusData D E :=
  { s with downloadError := none }

/-- `SyncStatusData::set_upload_state`. -/
def SyncStatusData.set_upload_state {D E : Type} (u : UploadStatus E) (s : SyncStatusData D E) :
    SyncStatusData D E :=
  { s with uploads := u }

/-- `SyncStatus`: the installed snapshot plus the ordered history of all
snapshots it replaced (oldest first). -/
structure SyncStatus (D E : Type) where
  past : List (SyncStatusData D E)
  current : SyncStatusData D E

/-- `SyncStatus::new()`. -/
def SyncStatus.new {D E : Type} (d : D) : SyncStatus D E :=
  ⟨[], .init d⟩

/-- The fate of a replaced snapshot: `is_invalidated` raised and one
notification fired on its `invalidated` event. -/
def SyncStatusData.invalidate {D E : Type} (s : SyncStatusData D E) : SyncStatusData D E :=
  { s with isInvalidated := true, notifyCount := s.notifyCount + 1 }

/-- `SyncStatus::update`: under the lock, derive a `new_revision` of the
current snapshot, run the mutator on it, install the result, then raise the
replaced snapshot's `is_invalidated` flag and notify its `invalidated` event
(once). -/
def SyncStatus.update {D E : Type} (st : SyncStatus D E)
    (mutator : SyncStatusData D E → SyncStatusData D E) : SyncStatus D E :=
  { past := st.past ++ [st.current.invalidate]
    current := mutator st.current.new_revision }

/-- A sequence of `update` calls on one status object. -/
def SyncStatus.applyUpdates {D E : Type} (st : SyncStatus D E)
    (ms : List (SyncStatusData D E → SyncStatusData D E)) : SyncStatus D E :=
  ms.foldl SyncStatus.update st

/-- `SyncStatusData::listen_for_changes`, with its two atomic loads of
`is_invalidated` made explicit: `firstLoad` is the value read before
attaching the listener to the `invalidated` event and `secondLoad` the value
re-read afterwards (if invalidation fired between the two reads, `firstLoad`
is `false` and `secondLoad` is `true`).  Returns `none` instead of a
listener whenever a raised flag is observed. -/
def listen_for_changes (firstLoad secondLoad : Bool) : Option Unit :=
  if firstLoad then none
  else if secondLoad then none
  else some ()

/-- The single-fire invariant of a status object: every replaced snapshot
has its flag raised and was notified exactly once, and the installed
snapshot is not yet invalidated. -/
def SyncStatus.Inv {D E : Type} (st : SyncStatus D E) : Prop :=
  (∀ p ∈ st.past, p.isInvalidated = true ∧ p.notifyCount = 1) ∧
    st.current.isInvalidated = false ∧ st.current.notifyCount = 0

theorem SyncStatus.inv_update {D E : Type} (st : SyncStatus D E)
    (m : SyncStatusData D E → SyncStatusData D E)
    (hm : ∀ s : SyncStatusData D E,
      (m s.new_revision).isInvalidated = false ∧ (m s.new_revision).notifyCount = 0)
    (h : st.Inv) : (st.update m).Inv := by
  obtain ⟨hpast, hflag, hcount⟩ := h
  refine ⟨?_, (hm st.current).1, (hm st.current).2⟩
  intro p hp
  rcases List.mem_append.mp hp with hmem | hmem
  · exact hpast p hmem
  · rcases List.mem_singleton.mp hmem with rfl
    exact ⟨rfl, by simp [SyncStatusData.invalidate, hcount]⟩

theorem SyncStatus.inv_applyUpdates {D E : Type} (st : SyncStatus D E)
    (ms : List (SyncStatusData D E → SyncStatusData D E))
    (hms : ∀ m ∈ ms, ∀ s : SyncStatusData D E,
      (m s.new_revision).isInvalidated = false ∧ (m s.new_revision).notifyCount = 0)
    (h : st.Inv) : (st.applyUpdates ms).Inv := by
  induction ms generalizing st with
  | nil => exact h
  | cons m rest ih =>
      exact ih (st.update m) (fun m' hm' => hms m' (by simp [hm']))
        (SyncStatus.inv_update st m (hms m (by simp)) h)

/-- The mutators the code passes to `SyncStatus::update`: closures invoking
one of the `SyncStatusData` methods. -/
inductive StatusMutator (D E : Type) where
  | updateFromCore (core : D)
  | setDownloadError (e : E)
  | clearDownloadErrors
  | setUploadState (u : UploadStatus E)

/-- Runs a mutator on the snapshot handed out by `SyncStatus::update`. -/
def StatusMutator.run {D E : Type} : StatusMutator D E →
    SyncStatusData D E → SyncStatusData D E
  | updateFromCore core => SyncStatusData.update_from_core core
  | setDownloadError e => SyncStatusData.set_download_error e
  | clearDownloadErrors => SyncStatusData.clear_download_errors
  | setUploadState u => SyncStatusData.set_upload_state u

theorem StatusMutator.run_fresh {D E : Type} (m : StatusMutator D E)
    (s : SyncStatusData D E) :
    (m.run s.new_revision).isInvalidated = false ∧ (m.run s.new_revision).notifyCount = 0 := by
  cases m <;> exact ⟨rfl, rfl⟩

/-- C6: for every sequence of `SyncStatus::update` calls on one status
object, snapshots are totally ordered — each update installs exactly one new
snapshot derived via `new_revision` from the current one, appending the
replaced snapshot to the history — and the `is_invalidated` flag of each
snapshot transitions from `false` to `true` exactly once, raised precisely
when the next snapshot is installed and accompanied by exactly one
notification of its invalidation event; moreover `listen_for_changes`
re-reads the flag after attaching a listener, so it returns `None` (rather
than a listener that is never woken) whenever invalidation fired before or
during attachment. -/
theorem sync_status_single_fire {D E : Type} (d : D) (ms : List (StatusMutator D E)) :
    SyncStatus.Inv ((SyncStatus.new d).applyUpdates (ms.map StatusMutator.run)) ∧
    (∀ (st : SyncStatus D E) (m : StatusMutator D E),
      (st.update m.run).past = st.past ++ [st.current.invalidate] ∧
      st.current.invalidate.isInvalidated = true ∧
      st.current.invalidate.notifyCount = st.current.notifyCount + 1 ∧
      (st.update m.run).current = m.run st.current.new_revision) ∧
    (∀ firstLoad secondLoad : Bool, firstLoad = true ∨ secondLoad = true →
      listen_for_changes firstLoad secondLoad = none) ∧
    listen_for_changes false false = some () := by
  refine ⟨?_, fun st m => ⟨rfl, rfl, rfl, rfl⟩, ?_, rfl⟩
  · refine SyncStatus.inv_applyUpdates _ _ ?_ ⟨by simp [SyncStatus.new], rfl, rfl⟩
    intro m hm s
    rcases List.mem_map.mp hm with ⟨m', -, rfl⟩
    exact m'.run_fresh s
  · rintro f s (rfl | rfl)
    · rfl
    · cases f <;> rfl

/-- Witness for C6: a concrete status object going through an upload-state
update followed by a download-error update, and a listener attachment racing
an invalidation. -/
theorem sync_status_single_fire_witness :
    SyncStatus.Inv ((SyncStatus.new 0).applyUpdates
      ([StatusMutator.setUploadState .uploading,
        StatusMutator.setDownloadError "boom"].map
        (StatusMutator.run (D := Nat) (E := String)))) ∧
    listen_for_changes false true = none :=
  ⟨(sync_status_single_fire 0 [StatusMutator.setUploadState .uploading,
      StatusMutator.setDownloadError "boom"]).1,
    (sync_status_single_fire (D := Nat) (E := String) 0 []).2.2.1 false true (Or.inr rfl)⟩

/-- C10: every `SyncStatus::update` derives the new snapshot via
`new_revision` before running the mutator; `new_revision` carries over the
downloading structure and the download error unchanged but resets the upload
state to `Idle`.  Consequently an update whose mutator does not explicitly
set the upload state — `update_from_core`, `set_download_error`,
`clear_download_errors` — installs a snapshot whose upload state is `Idle`,
even when the previous snapshot's upload state was `Uploading` or an error. -/
theorem update_resets_upload_state {D E : Type} (st : SyncStatus D E)
    (s : SyncStatusData D E) (core : D) (e : E) :
    (st.update (SyncStatusData.update_from_core core)).current =
      SyncStatusData.update_from_core core st.current.new_revision ∧
    s.new_revision.downloading = s.downloading ∧
    s.new_revision.downloadError = s.downloadError ∧
    s.new_revision.uploads = .idle ∧
    (st.update (SyncStatusData.update_from_core core)).current.uploads = .idle ∧
    (st.update (SyncStatusData.set_download_error e)).current.uploads = .idle ∧
    (st.update SyncStatusData.clear_download_errors).current.uploads = .idle :=
  ⟨rfl, rfl, rfl, rfl, rfl, rfl, rfl⟩

/-! ## Control-extension adapter
(src/powersync/src/sync/download/sync_iteration.rs)

`DownloadEvent::invoke_control` translates one event into a single
`SELECT powersync_control(op, arg)` call run inside a transaction.  The
embedding is parametric in the opaque payload types (`P` the start
parameters JSON value, `S` the schema, `K` the stream keys, `I` the parsed
instruction type, `E` the error type); the SQL function and the `serde_json`
parser — external collaborators — are oracles on the connection. -/

/-- `PowerSyncControlArgument` as bound by its `ToSql` impl: NULL, TEXT
(covering both the static and the owned string constructors) or BLOB. -/
inductive ControlArg where
  | null
  | text (s : String)
  | blob (b : List Nat)
  deriving Repr, DecidableEq

/-- `StartDownloadIteration`. -/
structure StartDownloadIteration (P S K : Type) where
  parameters : P
  schema : S
  include_defaults : Bool
  active_streams : List K

/-- `DownloadEvent`. -/
inductive DownloadEvent (P S K : Type) where
  | start (s : StartDownloadIteration P S K)
  | stop
  | textLine (data : String)
  | binaryLine (data : List Nat)
  | completedUpload
  | connectionEstablished
  | responseStreamEnd
  | updateSubscriptions (keys : List K)

/-- The `serde_json::to_string` serializers the adapter relies on (external
library, modelled as opaque total functions). -/
structure JsonSerializer (P S K : Type) where
  serializeStart : StartDownloadIteration P S K → String
  serializeKeys : List K → String

/-- `DownloadEvent::into_powersync_control_argument`. -/
def DownloadEvent.into_powersync_control_argument {P S K : Type}
    (ser : JsonSerializer P S K) : DownloadEvent P S K → String × ControlArg
  | .start s => ("start", .text (ser.serializeStart s))
  | .stop => ("stop", .null)
  | .textLine data => ("line_text", .text data)
  | .binaryLine data => ("line_binary", .blob data)
  | .completedUpload => ("completed_upload", .null)
  | .connectionEstablished => ("connection", .text "established")
  | .responseStreamEnd => ("connection", .text "end")
  | .updateSubscriptions keys => ("update_subscriptions", .text (ser.serializeKeys keys))

/-- The external collaborators of `invoke_control`: the SQL function
`powersync_control` (one row with a text value, or a failure) and the JSON
instruction-list parser. -/
structure ControlConnection (I E : Type) where
  control : String → ControlArg → Except E String
  parseInstructions : String → Except E (List I)

/-- Outcome of one `invoke_control` call: the `powersync_control` calls made
inside the transaction, the returned instruction list or the propagated
error, and whether the transaction was committed. -/
structure ControlCallResult (I E : Type) where
  calls : List (String × ControlArg)
  result : Except E (List I)
  committed : Bool

/-- `DownloadEvent::invoke_control`: open a transaction, run
`SELECT powersync_control(op, arg)` once, parse the returned text as a
JSON-encoded instruction list, commit, and return the list; when the SQL
call or the parse fails the error is propagated and the transaction is
dropped without committing (rolling back). -/
def DownloadEvent.invoke_control {P S K I E : Type} (ser : JsonSerializer P S K)
    (conn : ControlConnection I E) (ev : DownloadEvent P S K) : ControlCallResult I E :=
  let oa := ev.into_powersync_control_argument ser
  match conn.control oa.1 oa.2 with
  | .error e => ⟨[oa], .error e, false⟩
  | .ok row =>
      match conn.parseInstructions row with
      | .error e => ⟨[oa], .error e, false⟩
      | .ok instructions => ⟨[oa], .ok instructions, true⟩

/-- The event → `op` column of the specification's mapping table (spec §4.4). -/
def specControlOp {P S K : Type} : DownloadEvent P S K → String
  | .start _ => "start"
  | .stop => "stop"
  | .textLine _ => "line_text"
  | .binaryLine _ => "line_binary"
  | .completedUpload => "completed_upload"
  | .connectionEstablished => "connection"
  | .responseStreamEnd => "connection"
  | .updateSubscriptions _ => "update_subscriptions"

/-- The event → `arg` column of the specification's mapping table (spec §4.4):
the serialized JSON object for `Start`, NULL for `Stop` and
`CompletedUpload`, the text for `TextLine`, the blob for `BinaryLine`,
`"established"` / `"end"` for the connection events, and the serialized JSON
array for `UpdateSubscriptions`. -/
def specControlArg {P S K : Type} (ser : JsonSerializer P S K) :
    DownloadEvent P S K → ControlArg
  | .start s => .text (ser.serializeStart s)
  | .stop => .null
  | .textLine data => .text data
  | .binaryLine data => .blob data
  | .completedUpload => .null
  | .connectionEstablished => .text "established"
  | .responseStreamEnd => .text "end"
  | .updateSubscriptions keys => .text (ser.serializeKeys keys)

/-- C5: for every `DownloadEvent`, `invoke_control` runs
`SELECT powersync_control(op, arg)` exactly once, with the `(op, arg)` pair
given by the specification's mapping table; the transaction commits exactly
when an instruction list is returned, in which case the list is the parse of
the row returned by the control call; a SQL or parse error is propagated and
nothing commits. -/
theorem invoke_control_spec {P S K I E : Type} (ser : JsonSerializer P S K)
    (conn : ControlConnection I E) (ev : DownloadEvent P S K) :
    (ev.invoke_control ser conn).calls = [(specControlOp ev, specControlArg ser ev)] ∧
    ((ev.invoke_control ser conn).committed = true ↔
      ∃ instrs, (ev.invoke_control ser conn).result = .ok instrs) ∧
    (∀ instrs, (ev.invoke_control ser conn).result = .ok instrs →
      ∃ row, conn.control (specControlOp ev) (specControlArg ser ev) = .ok row ∧
        conn.parseInstructions row = .ok instrs) ∧
    (∀ e, (ev.invoke_control ser conn).result = .error e →
      (ev.invoke_control ser conn).committed = false) := by
  have hoa : ev.into_powersync_control_argument ser =
      (specControlOp ev, specControlArg ser ev) := by
    cases ev <;> rfl
  unfold DownloadEvent.invoke_control
  rw [hoa]
  rcases hc : conn.control (specControlOp ev) (specControlArg ser ev) with e | row
  · simp [hc]
  · rcases hp : conn.parseInstructions row with e | instrs
    · simp [hc, hp]
    · simp only [hc, hp]
      refine ⟨trivial, by simp, ?_, by simp⟩
      intro instrs' hi
      simp only [Except.ok.injEq] at hi
      exact ⟨row, rfl, by rw [hp, hi]⟩

/-- Witness for C5: a concrete event against a concrete control oracle. -/
theorem invoke_control_spec_witness :
    ∃ r, ((DownloadEvent.textLine "line" : DownloadEvent Unit Unit Unit).invoke_control
        ⟨fun _ => "", fun _ => ""⟩
        (⟨fun _ _ => Except.ok "[]", fun _ => Except.ok []⟩ : ControlConnection Unit Unit)).result
      = .ok r :=
  (invoke_control_spec ⟨fun _ => "", fun _ => ""⟩
    (⟨fun _ _ => Except.ok "[]", fun _ => Except.ok []⟩ : ControlConnection Unit Unit)
    (DownloadEvent.textLine "line" : DownloadEvent Unit Unit Unit)).2.1.mp rfl

/-! ## CRUD upload and write-checkpoint advance
(src/powersync/src/sync/upload.rs)

`CrudUpload::run` loops over the upload queue and then advances the write
checkpoint through `sequence_for_checkpoint` and
`PendingCheckpointRequest::complete`.  The database changes concurrently
between its reads, so the embedding records what each read and each external
call observed, in program order. -/

/-- `PowerSyncError`, restricted to the kinds this development needs. -/
inductive PowerSyncError where
  | argumentError (msg : String)
  | sqlite (msg : String)
  | http (msg : String)
  deriving Repr, DecidableEq

/-- One round of the `CrudUpload::run` loop: the oldest `ps_crud` id
returned by `SELECT id FROM ps_crud ORDER BY id LIMIT 1`, and the result of
the `connector.upload_data()` call that follows it. -/
structure UploadRound where
  oldestId : Int
  uploadResult : Except PowerSyncError Unit

/-- The observations `CrudUpload::run` makes of its environment, in program
order.  Once `rounds` is exhausted, the oldest-id query returns no row (the
queue is observed empty) and the loop exits. -/
structure UploadEnv where
  rounds : List UploadRound
  /-- The `ps_buckets` rows `(name, target_op)` seen by the first check of
  `sequence_for_checkpoint`. -/
  bucketsOnFirstCheck : List (String × Int)
  /-- The `sqlite_sequence` row for `ps_crud` at capture time, if any. -/
  seqBefore : Option Int
  /-- The `SELECT powersync_client_id()` read. -/
  clientId : Except PowerSyncError String
  /-- `fetch_credentials` plus the `write-checkpoint2.json` request. -/
  fetchCheckpoint : Except PowerSyncError Int
  /-- The `ps_crud` ids visible inside the final writer transaction. -/
  crudIdsInTx : List Int
  /-- The `sqlite_sequence` row for `ps_crud` re-read inside that
  transaction. -/
  seqInTx : Option Int

/-- The queue loop of `CrudUpload::run`: repeatedly read the oldest crud id;
fail with an argument error when the same id is observed twice in a row
(a connector that never completes its items); otherwise run
`connector.upload_data()` — the status is set to `Uploading` just before,
which does not influence this path — propagating its error. -/
def uploadLoop : Option Int → List UploadRound → Except PowerSyncError Unit
  | _, [] => .ok ()
  | lastItemId, round :: rest =>
      if lastItemId = some round.oldestId then
        .error (.argumentError "Delaying due to previously encountered CRUD item.")
      else
        match round.uploadResult with
        | .error e => .error e
        | .ok () => uploadLoop (some round.oldestId) rest

/-- `CrudUpload::sequence_for_checkpoint`: nothing to update unless
`ps_buckets` holds a row `(name = '$local', target_op = MAX_OP_ID)`
(`SELECT 1 FROM ps_buckets WHERE name = ? AND target_op = ?`) and
`sqlite_sequence` has a row for `ps_crud`; otherwise the captured sequence
number becomes the pending request. -/
def sequence_for_checkpoint (env : UploadEnv) : Option Int :=
  if env.bucketsOnFirstCheck.any
      (fun b => decide (b.1 = "$local") && decide (b.2 = MAX_OP_ID)) then
    env.seqBefore
  else
    none

/-- `PendingCheckpointRequest::complete`: inside a writer transaction,
return without updating when `ps_crud` is non-empty, panic (modelled as an
error) when the sequence row disappeared, return without updating when the
sequence moved since capture, and otherwise run
`UPDATE ps_buckets SET target_op = ? WHERE name = '$local'` and commit.
The result carries the committed `target_op` value, if any. -/
def PendingCheckpointRequest.complete (opId seqBefore : Int) (env : UploadEnv) :
    Except PowerSyncError (Option Int) :=
  if env.crudIdsInTx.isEmpty then
    match env.seqInTx with
    | none => .error (.argumentError "sqlite sequence should not be empty")
    | some seqAfter =>
        if seqAfter = seqBefore then .ok (some opId) else .ok none
  else
    .ok none

/-- `CrudUpload::run`: the upload loop, then — when a pending checkpoint
request exists — `get_write_checkpoint` (client-id read, credentials fetch
and HTTP request) followed by `PendingCheckpointRequest::complete`.  Returns
the routine's result paired with the committed `target_op` value (if the
UPDATE ran). -/
def CrudUpload.run (env : UploadEnv) : Except PowerSyncError Unit × Option Int :=
  match uploadLoop none env.rounds with
  | .error e => (.error e, none)
  | .ok () =>
      match sequence_for_checkpoint env with
      | none => (.ok (), none)
      | some seqBefore =>
          match env.clientId with
          | .error e => (.error e, none)
          | .ok _ =>
              match env.fetchCheckpoint with
              | .error e => (.error e, none)
              | .ok checkpoint =>
                  match PendingCheckpointRequest.complete checkpoint seqBefore env with
                  | .error e => (.error e, none)
                  | .ok committed => (.ok (), committed)

theorem sequence_for_checkpoint_some (env : UploadEnv) (s : Int)
    (h : sequence_for_checkpoint env = some s) :
    (∃ b ∈ env.bucketsOnFirstCheck, b.1 = "$local" ∧ b.2 = MAX_OP_ID) ∧
      env.seqBefore = some s := by
  unfold sequence_for_checkpoint at h
  split at h
  · rename_i hany
    refine ⟨?_, h⟩
    rcases List.any_eq_true.mp hany with ⟨b, hb, hcond⟩
    exact ⟨b, hb, by simpa using hcond⟩
  · simp at h

theorem pendingCheckpoint_complete_some (opId seqBefore : Int) (env : UploadEnv)
    (t : Int) (h : PendingCheckpointRequest.complete opId seqBefore env = .ok (some t)) :
    env.crudIdsInTx = [] ∧ env.seqInTx = some seqBefore ∧ t = opId := by
  unfold PendingCheckpointRequest.complete at h
  split at h
  · rename_i hempty
    split at h
    · simp at h
    · rename_i seqAfter hseq
      split at h
      · rename_i heq
        simp only [Except.ok.injEq, Option.some.injEq] at h
        exact ⟨List.isEmpty_iff.mp hempty, by rw [hseq, heq], h.symm⟩
      · simp at h
  · simp at h

/-- C2: in every execution of the CRUD upload routine (`CrudUpload::run`
followed by `PendingCheckpointRequest::complete`), the UPDATE setting
`ps_buckets.target_op` for bucket `$local` is committed only if all of the
following hold: the upload loop exited with `ps_crud` observed empty,
`ps_buckets` contained a row `(name = '$local', target_op = MAX_OP_ID)` on
the first check, inside the final writer transaction `ps_crud` is still
empty, and the `sqlite_sequence` value for `ps_crud` equals the value
captured before fetching the checkpoint; moreover the committed value is
the fetched write checkpoint.  In every other case the routine returns
without modifying `target_op`. -/
theorem crud_upload_checkpoint_discipline (env : UploadEnv) (target : Int)
    (h : (CrudUpload.run env).2 = some target) :
    uploadLoop none env.rounds = .ok () ∧
    (∃ b ∈ env.bucketsOnFirstCheck, b.1 = "$local" ∧ b.2 = MAX_OP_ID) ∧
    env.crudIdsInTx = [] ∧
    (∃ seq, env.seqBefore = some seq ∧ env.seqInTx = some seq) ∧
    env.fetchCheckpoint = .ok target := by
  unfold CrudUpload.run at h
  rcases hl : uploadLoop none env.rounds with e | u
  · simp [hl] at h
  · cases u
    rcases hs : sequence_for_checkpoint env with - | seqBefore
    · simp [hl, hs] at h
    · rcases hcid : env.clientId with e | cid
      · simp [hl, hs, hcid] at h
      · rcases hcp : env.fetchCheckpoint with e | checkpoint
        · simp [hl, hs, hcid, hcp] at h
        · rcases hc : PendingCheckpointRequest.complete checkpoint seqBefore env
            with e | committed
          · simp [hl, hs, hcid, hcp, hc] at h
          · simp [hl, hs, hcid, hcp, hc] at h
            subst h
            obtain ⟨hbucket, hseqB⟩ := sequence_for_checkpoint_some env seqBefore hs
            obtain ⟨hcrud, hseqA, ht⟩ :=
              pendingCheckpoint_complete_some checkpoint seqBefore env target hc
            exact ⟨rfl, hbucket, hcrud, ⟨seqBefore, hseqB, hseqA⟩,
              congrArg Except.ok ht.symm⟩

/-- Witness for C2: a run in which the queue is empty throughout, the
`$local` bucket is at `MAX_OP_ID`, the sequence is stable, and the fetched
checkpoint 10 is committed. -/
theorem crud_upload_checkpoint_discipline_witness :
    (CrudUpload.run ⟨[], [("$local", MAX_OP_ID)], some 3, .ok "cid", .ok 10,
      [], some 3⟩).2 = some 10 ∧
    (∃ b ∈ ([("$local", MAX_OP_ID)] : List (String × Int)),
      b.1 = "$local" ∧ b.2 = MAX_OP_ID) :=
  ⟨by decide,
    (crud_upload_checkpoint_discipline
      ⟨[], [("$local", MAX_OP_ID)], some 3, .ok "cid", .ok 10, [], some 3⟩ 10
      (by decide)).2.1⟩

/-! ## Stream subscription tracking (src/powersync/src/db/streams.rs)

`SyncStreamTracker` maps stream keys to weak references of
`StreamSubscriptionGroup`s; user-held `StreamSubscription`s are the strong
references.  The state below makes the `Arc`/`Weak` accounting explicit:
groups are identified by allocation order, `strong` holds the strong counts
of the live groups (an id is present exactly while `Weak::upgrade` would
succeed), and each handle records the group id and the group's `key`
field. -/

/-- `StreamKey`: stream name plus canonicalized parameters JSON. -/
structure StreamKey where
  name : String
  parameters : Option String
  deriving Repr, DecidableEq

/-- Association-list lookup (for the tracker's `HashMap` and for the strong
counts). -/
def alookup {α β : Type} [DecidableEq α] : List (α × β) → α → Option β
  | [], _ => none
  | (a, b) :: rest, key => if a = key then some b else alookup rest key

/-- Removes the entries for a key. -/
def aremove {α β : Type} [DecidableEq α] (l : List (α × β)) (key : α) : List (α × β) :=
  l.filter (fun p => !decide (p.1 = key))

/-- `HashMap::insert`: adds or replaces the entry for a key. -/
def aset {α β : Type} [DecidableEq α] (l : List (α × β)) (key : α) (v : β) : List (α × β) :=
  (key, v) :: aremove l key

/-- The tracker and refcount state. -/
structure TrackerState where
  /-- `SyncStreamTracker.streams`: key to weak group reference. -/
  map : List (StreamKey × Nat)
  /-- Strong counts of the live groups. -/
  strong : List (Nat × Nat)
  /-- Supply of fresh group identities. -/
  next : Nat
  deriving Repr, DecidableEq

/-- A live `StreamSubscription`: a strong reference to a group, carrying the
group's `key` field. -/
structure Handle where
  group : Nat
  key : StreamKey
  deriving Repr, DecidableEq

/-- The "create a new group" path of `reference_stream`: allocate a group
with one strong reference, store its weak reference in the map (replacing
any stale entry), and report the changed subscription set. -/
def freshGroup (st : TrackerState) (key : StreamKey) : TrackerState × Handle × Bool :=
  (⟨aset st.map key st.next, (st.next, 1) :: st.strong, st.next + 1⟩,
    ⟨st.next, key⟩, true)

/-- `SyncStreamTracker::reference_stream`: when the map holds an entry for
the key whose weak reference still upgrades, clone that group (bumping its
strong count) and report no change; otherwise create a fresh group. -/
def reference_stream (st : TrackerState) (key : StreamKey) :
    TrackerState × Handle × Bool :=
  match alookup st.map key with
  | some gid =>
      match alookup st.strong gid with
      | some c => ({ st with strong := aset st.strong gid (c + 1) }, ⟨gid, key⟩, false)
      | none => freshGroup st key
  | none => freshGroup st key

/-- Dropping one `StreamSubscription`: the group's strong count decreases;
when it reaches zero the group itself is dropped, and
`Drop for StreamSubscriptionGroup` removes the tracker entry for its key —
but only when that entry still points to this very group (`Weak::ptr_eq`). -/
def dropHandle (st : TrackerState) (h : Handle) : TrackerState :=
  match alookup st.strong h.group with
  | none => st
  | some c =>
      if c ≤ 1 then
        let st' : TrackerState := { st with strong := aremove st.strong h.group }
        match alookup st'.map h.key with
        | some gid =>
            if gid = h.group then { st' with map := aremove st'.map h.key } else st'
        | none => st'
      else
        { st with strong := aset st.strong h.group (c - 1) }

/-- `N` subscribe operations for one key. -/
def subscribeN : Nat → TrackerState → StreamKey → TrackerState × List Handle
  | 0, st, _ => (st, [])
  | n + 1, st, key =>
      let r := reference_stream st key
      let rest := subscribeN n r.1 key
      (rest.1, r.2.1 :: rest.2)

/-- Dropping a collection of handles, one after the other. -/
def dropAll (st : TrackerState) (hs : List Handle) : TrackerState :=
  hs.foldl dropHandle st

theorem alookup_aset_self {α β : Type} [DecidableEq α] (l : List (α × β)) (k : α) (v : β) :
    alookup (aset l k v) k = some v := by
  simp [aset, alookup]

theorem alookup_aremove_ne {α β : Type} [DecidableEq α] (l : List (α × β)) (k k' : α)
    (h : k ≠ k') : alookup (aremove l k) k' = alookup l k' := by
  induction l with
  | nil => rfl
  | cons p rest ih =>
      rcases p with ⟨a, b⟩
      by_cases ha : a = k
      · have h1 : aremove ((a, b) :: rest) k = aremove rest k := by
          simp [aremove, ha]
        have h2 : alookup ((a, b) :: rest) k' = alookup rest k' := by
          have hak : a ≠ k' := by rw [ha]; exact h
          simp [alookup, hak]
        rw [h1, h2, ih]
      · have h1 : aremove ((a, b) :: rest) k = (a, b) :: aremove rest k := by
          simp [aremove, ha]
        rw [h1]
        by_cases ha' : a = k'
        · simp [alookup, ha']
        · simp [alookup, ha', ih]

theorem alookup_aset_ne {α β : Type} [DecidableEq α] (l : List (α × β)) (k k' : α) (v : β)
    (h : k ≠ k') : alookup (aset l k v) k' = alookup l k' := by
  simp only [aset, alookup, if_neg h]
  exact alookup_aremove_ne l k k' h

theorem alookup_aremove_self {α β : Type} [DecidableEq α] (l : List (α × β)) (k : α) :
    alookup (aremove l k) k = none := by
  induction l with
  | nil => rfl
  | cons p rest ih =>
      rcases p with ⟨a, b⟩
      by_cases ha : a = k
      · simpa [aremove, List.filter, ha] using ih
      · simpa [aremove, List.filter, ha, alookup] using ih

theorem reference_stream_fresh (st : TrackerState) (key : StreamKey)
    (h : ∀ g, alookup st.map key = some g → alookup st.strong g = none) :
    reference_stream st key = freshGroup st key := by
  unfold reference_stream
  rcases hm : alookup st.map key with - | g
  · simp only [hm]
  · simp only [hm, h g hm]

theorem subscribeN_live (m : Nat) (key : StreamKey) (g : Nat) :
    ∀ (st : TrackerState) (c : Nat), alookup st.map key = some g →
      alookup st.strong g = some c →
      (subscribeN m st key).2 = List.replicate m ⟨g, key⟩ ∧
      (subscribeN m st key).1.map = st.map ∧
      alookup (subscribeN m st key).1.strong g = some (c + m) := by
  induction m with
  | zero => exact fun st c _ hc => ⟨rfl, rfl, by simpa using hc⟩
  | succ n ih =>
      intro st c hm hc
      have hr : reference_stream st key =
          ({ st with strong := aset st.strong g (c + 1) }, ⟨g, key⟩, false) := by
        unfold reference_stream
        simp only [hm, hc]
      obtain ⟨h2, h1, h3⟩ := ih { st with strong := aset st.strong g (c + 1) } (c + 1)
        hm (alookup_aset_self st.strong g (c + 1))
      simp only [subscribeN, hr]
      refine ⟨by rw [h2, List.replicate_succ], h1, ?_⟩
      rw [h3]
      congr 1
      omega

theorem dropAll_replicate (m : Nat) (h : Handle) :
    ∀ st : TrackerState, 1 ≤ m → alookup st.strong h.group = some m →
      alookup st.map h.key = some h.group →
      alookup (dropAll st (List.replicate m h)).map h.key = none := by
  induction m with
  | zero => intro st h1 _ _; omega
  | succ n ih =>
      intro st h1 hc hm
      rcases Nat.eq_zero_or_pos n with rfl | hn
      · simp only [List.replicate_succ, List.replicate_zero, dropAll, List.foldl_cons,
          List.foldl_nil]
        unfold dropHandle
        simp only [hc]
        rw [if_pos (by omega)]
        simp only [hm, if_pos rfl]
        exact alookup_aremove_self st.map h.key
      · simp only [List.replicate_succ, dropAll, List.foldl_cons]
        have hstep : dropHandle st h = { st with strong := aset st.strong h.group n } := by
          unfold dropHandle
          simp only [hc]
          rw [if_neg (by omega)]
          simp
        rw [hstep]
        exact ih { st with strong := aset st.strong h.group n } hn
          (alookup_aset_self st.strong h.group n) hm

/-- C7: for every `N ≥ 1` and every stream key (name plus canonicalized
parameters), starting from a tracker state holding no live group for that
key (and a fresh identity supply), `N` subscribe operations return `N`
handles that all refer to one and the same group — so dropping them in any
order performs the same `N` refcount decrements — and after all `N` drops
the tracker's map contains no entry for that key.  Moreover, subscribing to
an already-tracked key returns the existing group without creating a second
entry: the map is unchanged. -/
theorem stream_tracker_refcount (st : TrackerState) (key : StreamKey) (N : Nat)
    (hN : 1 ≤ N)
    (hdead : ∀ g, alookup st.map key = some g → alookup st.strong g = none) :
    (∀ h ∈ (subscribeN N st key).2, h = ⟨st.next, key⟩) ∧
    alookup (dropAll (subscribeN N st key).1 (subscribeN N st key).2).map key = none ∧
    (∀ (st' : TrackerState) (g c : Nat), alookup st'.map key = some g →
      alookup st'.strong g = some c →
      (reference_stream st' key).1.map = st'.map ∧
      (reference_stream st' key).2.1 = ⟨g, key⟩) := by
  rcases N with - | n
  · omega
  · have hr : reference_stream st key = freshGroup st key := reference_stream_fresh st key hdead
    have hm1 : alookup (freshGroup st key).1.map key = some st.next :=
      alookup_aset_self st.map key st.next
    have hc1 : alookup (freshGroup st key).1.strong st.next = some 1 := by
      simp [freshGroup, alookup]
    obtain ⟨h2, h1, h3⟩ := subscribeN_live n key st.next (freshGroup st key).1 1 hm1 hc1
    have hsub : subscribeN (n + 1) st key =
        ((subscribeN n (freshGroup st key).1 key).1,
          (⟨st.next, key⟩ : Handle) :: (subscribeN n (freshGroup st key).1 key).2) := by
      simp only [subscribeN, hr]
      rfl
    refine ⟨?_, ?_, ?_⟩
    · intro h hh
      rw [hsub] at hh
      rcases List.mem_cons.mp hh with rfl | hh
      · rfl
      · rw [h2] at hh
        exact List.eq_of_mem_replicate hh
    · rw [hsub]
      simp only []
      rw [h2]
      have : ((⟨st.next, key⟩ : Handle) :: List.replicate n ⟨st.next, key⟩) =
          List.replicate (n + 1) ⟨st.next, key⟩ := by rw [List.replicate_succ]
      rw [this]
      refine dropAll_replicate (n + 1) ⟨st.next, key⟩ _ (by omega) ?_ ?_
      · rw [h3]
        congr 1
        omega
      · rw [h1]
        exact hm1
    · intro st' g c hm' hc'
      unfold reference_stream
      simp only [hm', hc']
      exact ⟨trivial, trivial⟩

/-- Witness for C7: two subscriptions and two drops on an empty tracker. -/
theorem stream_tracker_refcount_witness :
    alookup (dropAll (subscribeN 2 ⟨[], [], 0⟩ ⟨"todos", none⟩).1
      (subscribeN 2 ⟨[], [], 0⟩ ⟨"todos", none⟩).2).map ⟨"todos", none⟩ = none :=
  (stream_tracker_refcount ⟨[], [], 0⟩ ⟨"todos", none⟩ 2 (by omega)
    (fun g hg => by simp [alookup] at hg)).2.1

/-! ## Download actor reconnect handling
(src/powersync/src/sync/download/actor.rs, src/powersync/src/sync/options.rs,
src/powersync/src/db/internal.rs) -/

/-- `CloseSyncStream` (instruction.rs): whether clients should hide the brief
disconnected status and reconnect immediately. -/
structure CloseSyncStream where
  hide_disconnect : Bool
  deriving Repr, DecidableEq

/-- `SyncOptions` (options.rs).  `SyncOptions::new` defaults to
`include_default_streams = true` and a `retry_delay` of 5 seconds;
`with_retry_delay` overrides it.  The field is documented as "The retry
delay between sync iterations on errors". -/
structure SyncOptionsModel where
  include_default_streams : Bool
  retryDelayMillis : Nat
  deriving Repr, DecidableEq

/-- `SyncOptions::new`. -/
def SyncOptionsModel.new : SyncOptionsModel := ⟨true, 5000⟩

/-- `InnerPowerSyncState::sync_iteration_delay` (internal.rs:110): the body
is empty — the future completes immediately, i.e. after zero milliseconds —
and `SyncOptions.retry_delay` is never read. -/
def sync_iteration_delay_millis : Nat := 0

/-- The download actor's states (actor.rs), with the reconnect delay the
`WaitingForReconnect` timeout future will wait. -/
inductive DownloadActorState where
  | idle
  | running
  | waitingForReconnect (delayMillis : Nat)
  | stopped
  deriving Repr, DecidableEq

/-- The two ways a running sync iteration can end. -/
inductive IterationOutcome where
  | complete (close : CloseSyncStream)
  | failed (e : PowerSyncError)
  deriving Repr, DecidableEq

/-- `DownloadActor::handle_event` in the `Running` state, restricted to the
iteration-ended events: on `SyncIterationComplete` the timeout is the
immediate `async {}` future when `hide_disconnect` is set and
`sync_iteration_delay()` otherwise; on `SyncIterationError` the error is
stored in the status snapshot and the timeout is `sync_iteration_delay()`. -/
def handleIterationEnd : IterationOutcome → DownloadActorState × Option PowerSyncError
  | .complete close =>
      (.waitingForReconnect (if close.hide_disconnect then 0 else sync_iteration_delay_millis),
        none)
  | .failed e => (.waitingForReconnect sync_iteration_delay_millis, some e)

/-- C9, evaluated at the failing input: an iteration error (or a clean close
with `hide_disconnect = false`) moves the actor to `WaitingForReconnect` and
stores the error, but the delay waited is the zero milliseconds of the empty
`sync_iteration_delay` body — not the configured retry delay that
`SyncOptions` documents (5000 ms by default). -/
theorem download_actor_retry_delay_ignored :
    handleIterationEnd (.failed (.http "connection reset")) =
      (.waitingForReconnect 0, some (.http "connection reset")) ∧
    handleIterationEnd (.complete ⟨true⟩) = (.waitingForReconnect 0, none) ∧
    handleIterationEnd (.complete ⟨false⟩) = (.waitingForReconnect 0, none) ∧
    SyncOptionsModel.new.retryDelayMillis = 5000 ∧
    sync_iteration_delay_millis ≠ SyncOptionsModel.new.retryDelayMillis := by
  exact ⟨rfl, rfl, rfl, rfl, by decide⟩

/-! ## Schema validation (src/powersync/src/db/schema.rs)

Names are modelled as `List Char`, matching the per-character checks of
`Schema::validate_name`.  Error messages are kept as plain strings; only
success or failure matters to the claims. -/

/-- `ColumnType`. -/
inductive ColumnType where
  | integer
  | text
  | real
  deriving Repr, DecidableEq

/-- `Column`. -/
structure Column where
  name : List Char
  column_type : ColumnType
  deriving Repr, DecidableEq

/-- `IndexedColumn`. -/
structure IndexedColumn where
  name : List Char
  ascending : Bool
  type_name : List Char
  deriving Repr, DecidableEq

/-- `Index`. -/
structure Index where
  name : List Char
  columns : List IndexedColumn
  deriving Repr, DecidableEq

/-- `TrackPreviousValues`. -/
structure TrackPreviousValues where
  column_filter : Option (List (List Char))
  only_when_changed : Bool
  deriving Repr, DecidableEq

/-- `TableOptions`. -/
structure TableOptions where
  local_only : Bool
  insert_only : Bool
  track_metadata : Bool
  track_previous_values : Option TrackPreviousValues
  ignore_empty_updates : Bool
  deriving Repr, DecidableEq

/-- `Table`. -/
structure Table where
  name : List Char
  view_name_override : Option (List Char)
  columns : List Column
  indexes : List Index
  options : TableOptions
  deriving Repr, DecidableEq

/-- `PendingStatementValue`. -/
inductive PendingStatementValue where
  | id
  | column (name : List Char)
  | rest
  deriving Repr, DecidableEq

/-- `PendingStatement`. -/
structure PendingStatement where
  sql : List Char
  params : List PendingStatementValue
  deriving Repr, DecidableEq

/-- `RawTableSchema`. -/
structure RawTableSchema where
  table_name : List Char
  synced_columns : Option (List (List Char))
  options : TableOptions
  deriving Repr, DecidableEq

/-- `RawTable`. -/
structure RawTable where
  name : List Char
  schema : Option RawTableSchema
  put : Option PendingStatement
  delete : Option PendingStatement
  clear : Option (List Char)
  deriving Repr, DecidableEq

/-- `Schema`. -/
structure Schema where
  tables : List Table
  raw_tables : List RawTable
  deriving Repr, DecidableEq

/-- `Schema::is_invalid_name_char`: the regex `["'%,.#\s\[\]]`
(`Char.isWhitespace` standing in for Rust's `char::is_whitespace`). -/
def is_invalid_name_char (c : Char) : Bool :=
  c = '"' || c = '\'' || c = '%' || c = ',' || c = '.' || c = '#' || c = '[' || c = ']' ||
    c.isWhitespace

/-- `Schema::validate_name`. -/
def validate_name (name : List Char) : Except String Unit :=
  if name.any is_invalid_name_char then
    .error "Name contains invalid characters."
  else
    .ok ()

/-- `TableOptions::validate`. -/
def TableOptions.validate (o : TableOptions) : Except String Unit :=
  if o.local_only && o.track_metadata then
    .error "Can't track metadata for local-only tables"
  else if o.local_only && o.track_previous_values.isSome then
    .error "Can't track old values for local-only tables"
  else
    .ok ()

/-- The column loop of `Table::validate`: `column_names` starts out holding
`"id"`; each column is refused when named `id`, when already seen, or when
its name has invalid characters.  Returns the final set of seen names (used
afterwards by the index loop). -/
def checkColumns (seen : List (List Char)) : List Column → Except String (List (List Char))
  | [] => .ok seen
  | column :: rest =>
      if column.name = ['i', 'd'] then
        .error "id column is automatically added, custom id columns are not supported"
      else if column.name ∈ seen then
        .error "Duplicate column"
      else
        match validate_name column.name with
        | .error e => .error e
        | .ok () => checkColumns (column.name :: seen) rest

/-- The index loop of `Table::validate`: each index is refused when its name
was already seen or has invalid characters, or when one of its columns does
not appear in `column_names` (the inner `for` errors at the first missing
column; only success or failure is observed here). -/
def checkIndexes (columnNames : List (List Char)) (seenIdx : List (List Char)) :
    List Index → Except String Unit
  | [] => .ok ()
  | idx :: rest =>
      if idx.name ∈ seenIdx then
        .error "Duplicate index"
      else
        match validate_name idx.name with
        | .error e => .error e
        | .ok () =>
            if idx.columns.all (fun ic => decide (ic.name ∈ columnNames)) then
              checkIndexes columnNames (idx.name :: seenIdx) rest
            else
              .error "Column not found for index"

/-- The optional view-name check of `Table::validate`. -/
def validate_view_name : Option (List Char) → Except String Unit
  | some v => validate_name v
  | none => .ok ()

/-- `Table::validate`. -/
def Table.validate (t : Table) : Except String Unit :=
  if t.columns.length > 1999 then
    .error "Has more than 1999 columns, which is not supported"
  else
    match validate_name t.name with
    | .error e => .error e
    | .ok () =>
        match validate_view_name t.view_name_override with
        | .error e => .error e
        | .ok () =>
            match t.options.validate with
            | .error e => .error e
            | .ok () =>
                match checkColumns [['i', 'd']] t.columns with
                | .error e => .error e
                | .ok columnNames => checkIndexes columnNames [] t.indexes

/-- `RawTable::validate`. -/
def RawTable.validate (rt : RawTable) : Except String Unit :=
  match rt.schema with
  | some schema => schema.options.validate
  | none =>
      if rt.put.isNone || rt.delete.isNone then
        .error "Raw tables without a schema need to provide put and delete statements."
      else
        .ok ()

/-- The managed-table loop of `Schema::validate`, with the seen table
names. -/
def checkTables (seen : List (List Char)) : List Table → Except String Unit
  | [] => .ok ()
  | t :: rest =>
      if t.name ∈ seen then
        .error "Duplicate table name"
      else
        match t.validate with
        | .error e => .error e
        | .ok () => checkTables (t.name :: seen) rest

/-- The raw-table loop of `Schema::validate`. -/
def checkRawTables : List RawTable → Except String Unit
  | [] => .ok ()
  | rt :: rest =>
      match rt.validate with
      | .error e => .error e
      | .ok () => checkRawTables rest

/-- `Schema::validate`. -/
def Schema.validate (s : Schema) : Except String Unit :=
  match checkTables [] s.tables with
  | .error e => .error e
  | .ok () => checkRawTables s.raw_tables

/-- A name satisfying the claim's character restriction: none of
`" ' % , . # [ ]` and no whitespace. -/
def GoodName (name : List Char) : Prop :=
  ∀ c ∈ name, is_invalid_name_char c = false

instance : DecidablePred GoodName := fun n => by unfold GoodName; infer_instance

/-- The local-only restrictions, as the claim states them: a local-only
table tracks neither metadata nor previous values. -/
def OptionsOk (o : TableOptions) : Prop :=
  ¬(o.local_only = true ∧ o.track_metadata = true) ∧
  ¬(o.local_only = true ∧ o.track_previous_values.isSome = true)

instance : DecidablePred OptionsOk := fun o => by unfold OptionsOk; infer_instance

/-- The list of invariants exactly as the claim states them: table names
pairwise distinct; every table, view-override, column and index name free of
the forbidden characters; no column named `id`; column names unique within
each table; at most 1999 columns per table; no local-only table tracking
metadata or previous values; every raw table carrying either a schema or
both put and delete statements. -/
def ClaimValid (s : Schema) : Prop :=
  (s.tables.map Table.name).Nodup ∧
  (∀ t ∈ s.tables,
    t.columns.length ≤ 1999 ∧
    GoodName t.name ∧
    (match t.view_name_override with
     | some v => GoodName v
     | none => True) ∧
    OptionsOk t.options ∧
    (∀ c ∈ t.columns, c.name ≠ ['i', 'd'] ∧ GoodName c.name) ∧
    (t.columns.map Column.name).Nodup ∧
    (∀ i ∈ t.indexes, GoodName i.name)) ∧
  (∀ rt ∈ s.raw_tables,
    rt.schema.isSome = true ∨ (rt.put.isSome = true ∧ rt.delete.isSome = true))

/-- What `Table::validate` actually accepts: the claim's per-table
invariants plus uniqueness of index names within the table, and containment
of every indexed column in the table's columns (or the implicit `id`
column). -/
def TableOk (t : Table) : Prop :=
  t.columns.length ≤ 1999 ∧
  GoodName t.name ∧
  (match t.view_name_override with
   | some v => GoodName v
   | none => True) ∧
  OptionsOk t.options ∧
  (∀ c ∈ t.columns, c.name ≠ ['i', 'd'] ∧ GoodName c.name) ∧
  (t.columns.map Column.name).Nodup ∧
  (t.indexes.map Index.name).Nodup ∧
  (∀ i ∈ t.indexes, GoodName i.name ∧
    ∀ ic ∈ i.columns, ic.name ∈ ['i', 'd'] :: t.columns.map Column.name)

/-- What `RawTable::validate` actually accepts: a schema whose options obey
the local-only restrictions, or both put and delete statements. -/
def RawTableOk (rt : RawTable) : Prop :=
  match rt.schema with
  | some sch => OptionsOk sch.options
  | none => rt.put.isSome = true ∧ rt.delete.isSome = true

/-- The amended claim: the full characterization of what `Schema::validate`
accepts. -/
def AmendedValid (s : Schema) : Prop :=
  (s.tables.map Table.name).Nodup ∧
  (∀ t ∈ s.tables, TableOk t) ∧
  (∀ rt ∈ s.raw_tables, RawTableOk rt)

theorem validate_name_ok_iff (n : List Char) : validate_name n = .ok () ↔ GoodName n := by
  unfold validate_name
  cases hany : n.any is_invalid_name_char with
  | false =>
      simp only [Bool.false_eq_true, if_false]
      refine iff_of_true trivial ?_
      intro c hc
      simpa using (List.any_eq_false.mp hany) c hc
  | true =>
      simp only [if_true]
      refine iff_of_false (by simp) ?_
      rcases List.any_eq_true.mp hany with ⟨c, hc, hinv⟩
      intro hg
      exact absurd (hg c hc) (by simp [hinv])

theorem tableOptions_validate_ok_iff (o : TableOptions) :
    o.validate = .ok () ↔ OptionsOk o := by
  unfold TableOptions.validate OptionsOk
  cases hl : o.local_only <;> cases hm : o.track_metadata <;>
    cases hp : o.track_previous_values.isSome <;> simp [hl, hm, hp]

theorem validate_view_name_ok_iff (v : Option (List Char)) :
    validate_view_name v = .ok () ↔
      (match v with
       | some v' => GoodName v'
       | none => True) := by
  cases v with
  | none => simp [validate_view_name]
  | some v' => simpa [validate_view_name] using validate_name_ok_iff v'

theorem checkColumns_ok_iff (cols : List Column) : ∀ seen : List (List Char),
    (∃ r, checkColumns seen cols = .ok r) ↔
      ((∀ c ∈ cols, c.name ≠ ['i', 'd'] ∧ GoodName c.name) ∧
        (cols.map Column.name).Nodup ∧ ∀ c ∈ cols, c.name ∉ seen) := by
  induction cols with
  | nil =>
      intro seen
      simp [checkColumns]
  | cons c rest ih =>
      intro seen
      unfold checkColumns
      by_cases hid : c.name = ['i', 'd']
      · simp only [if_pos hid]
        refine iff_of_false (by simp) ?_
        rintro ⟨hall, -, -⟩
        exact absurd hid (hall c (by simp)).1
      · simp only [if_neg hid]
        by_cases hseen : c.name ∈ seen
        · simp only [if_pos hseen]
          refine iff_of_false (by simp) ?_
          rintro ⟨-, -, hns⟩
          exact absurd hseen (hns c (by simp))
        · simp only [if_neg hseen]
          rcases hvn : validate_name c.name with e | u
          · refine iff_of_false (by simp) ?_
            rintro ⟨hall, -, -⟩
            have hok := (validate_name_ok_iff c.name).mpr (hall c (by simp)).2
            rw [hvn] at hok
            exact Except.noConfusion hok
          · cases u
            have hgood : GoodName c.name := (validate_name_ok_iff c.name).mp hvn
            show (∃ r, checkColumns (c.name :: seen) rest = .ok r) ↔ _
            rw [ih (c.name :: seen)]
            constructor
            · rintro ⟨hA, hN, hS⟩
              refine ⟨?_, ?_, ?_⟩
              · intro c' hc'
                rcases List.mem_cons.mp hc' with rfl | hc'
                · exact ⟨hid, hgood⟩
                · exact hA c' hc'
              · simp only [List.map_cons, List.nodup_cons]
                refine ⟨?_, hN⟩
                intro hmem
                rcases List.mem_map.mp hmem with ⟨c', hc', hname⟩
                exact absurd (by simp [hname]) (hS c' hc')
              · intro c' hc'
                rcases List.mem_cons.mp hc' with rfl | hc'
                · exact hseen
                · intro hmem
                  exact (hS c' hc') (by simp [hmem])
            · rintro ⟨hA, hN, hS⟩
              rw [List.map_cons, List.nodup_cons] at hN
              refine ⟨fun c' hc' => hA c' (by simp [hc']), hN.2, ?_⟩
              intro c' hc'
              simp only [List.mem_cons]
              rintro (heq | hmem)
              · exact hN.1 (List.mem_map.mpr ⟨c', hc', heq⟩)
              · exact (hS c' (by simp [hc'])) hmem

theorem checkColumns_mem (cols : List Column) : ∀ (seen r : List (List Char)),
    checkColumns seen cols = .ok r → ∀ x, x ∈ r ↔ x ∈ seen ∨ x ∈ cols.map Column.name := by
  induction cols with
  | nil =>
      intro seen r hr x
      simp only [checkColumns, Except.ok.injEq] at hr
      subst hr
      simp
  | cons c rest ih =>
      intro seen r hr x
      unfold checkColumns at hr
      split at hr
      · exact Except.noConfusion hr
      · split at hr
        · exact Except.noConfusion hr
        · split at hr
          · exact Except.noConfusion hr
          · have := ih (c.name :: seen) r hr x
            rw [this]
            simp only [List.mem_cons, List.map_cons]
            tauto

theorem goodName_any (n : List Char) (h : ¬GoodName n) :
    n.any is_invalid_name_char = true := by
  rw [List.any_eq_true]
  by_contra hno
  apply h
  intro c hc
  by_contra hc'
  exact hno ⟨c, hc, by simpa using hc'⟩

theorem validate_name_err (n : List Char) (h : ¬GoodName n) :
    validate_name n = .error "Name contains invalid characters." := by
  unfold validate_name
  rw [if_pos (goodName_any n h)]

theorem checkIndexes_ok_iff (idxs : List Index) (columnNames : List (List Char)) :
    ∀ seenIdx : List (List Char),
    checkIndexes columnNames seenIdx idxs = .ok () ↔
      ((∀ i ∈ idxs, GoodName i.name ∧ ∀ ic ∈ i.columns, ic.name ∈ columnNames) ∧
        (idxs.map Index.name).Nodup ∧ ∀ i ∈ idxs, i.name ∉ seenIdx) := by
  induction idxs with
  | nil =>
      intro seenIdx
      simp [checkIndexes]
  | cons idx rest ih =>
      intro seenIdx
      unfold checkIndexes
      by_cases hseen : idx.name ∈ seenIdx
      · simp only [if_pos hseen]
        refine iff_of_false (by simp) ?_
        rintro ⟨-, -, hns⟩
        exact absurd hseen (hns idx (by simp))
      · simp only [if_neg hseen]
        by_cases hgoodp : GoodName idx.name
        · have hvn : validate_name idx.name = .ok () := (validate_name_ok_iff _).mpr hgoodp
          simp only [hvn]
          by_cases hcols : ∀ ic ∈ idx.columns, ic.name ∈ columnNames
          · have hall : (idx.columns.all fun ic => decide (ic.name ∈ columnNames)) = true := by
              rw [List.all_eq_true]
              intro ic hic
              simpa using hcols ic hic
            simp only [hall, if_true]
            rw [ih (idx.name :: seenIdx)]
            constructor
            · rintro ⟨hA, hN, hS⟩
              refine ⟨?_, ?_, ?_⟩
              · intro i hi
                rcases List.mem_cons.mp hi with rfl | hi
                · exact ⟨hgoodp, hcols⟩
                · exact hA i hi
              · rw [List.map_cons, List.nodup_cons]
                refine ⟨?_, hN⟩
                intro hmem
                rcases List.mem_map.mp hmem with ⟨i, hi, hname⟩
                exact absurd (by simp [hname]) (hS i hi)
              · intro i hi
                rcases List.mem_cons.mp hi with rfl | hi
                · exact hseen
                · intro hmem
                  exact (hS i hi) (by simp [hmem])
            · rintro ⟨hA, hN, hS⟩
              rw [List.map_cons, List.nodup_cons] at hN
              refine ⟨fun i hi => hA i (by simp [hi]), hN.2, ?_⟩
              intro i hi
              simp only [List.mem_cons]
              rintro (heq | hmem)
              · exact hN.1 (List.mem_map.mpr ⟨i, hi, heq⟩)
              · exact (hS i (by simp [hi])) hmem
          · have hall : (idx.columns.all fun ic => decide (ic.name ∈ columnNames)) = false := by
              rw [List.all_eq_false]
              push_neg at hcols
              rcases hcols with ⟨ic, hic, hnot⟩
              exact ⟨ic, hic, by simpa using hnot⟩
            simp only [hall, Bool.false_eq_true, if_false]
            refine iff_of_false (by simp) ?_
            rintro ⟨hA, -, -⟩
            exact hcols (hA idx (by simp)).2
        · simp only [validate_name_err idx.name hgoodp]
          refine iff_of_false (by simp) ?_
          rintro ⟨hA, -, -⟩
          exact hgoodp (hA idx (by simp)).1

theorem checkTables_ok_iff (ts : List Table) : ∀ seen : List (List Char),
    checkTables seen ts = .ok () ↔
      ((∀ t ∈ ts, t.validate = .ok ()) ∧ (ts.map Table.name).Nodup ∧
        ∀ t ∈ ts, t.name ∉ seen) := by
  induction ts with
  | nil =>
      intro seen
      simp [checkTables]
  | cons t rest ih =>
      intro seen
      unfold checkTables
      by_cases hseen : t.name ∈ seen
      · simp only [if_pos hseen]
        refine iff_of_false (by simp) ?_
        rintro ⟨-, -, hns⟩
        exact absurd hseen (hns t (by simp))
      · simp only [if_neg hseen]
        rcases hv : t.validate with e | u
        · refine iff_of_false (by simp) ?_
          rintro ⟨hall, -, -⟩
          have hok := hall t (by simp)
          rw [hv] at hok
          exact Except.noConfusion hok
        · cases u
          show checkTables (t.name :: seen) rest = .ok () ↔ _
          rw [ih (t.name :: seen)]
          constructor
          · rintro ⟨hA, hN, hS⟩
            refine ⟨?_, ?_, ?_⟩
            · intro t' ht'
              rcases List.mem_cons.mp ht' with rfl | ht'
              · exact hv
              · exact hA t' ht'
            · rw [List.map_cons, List.nodup_cons]
              refine ⟨?_, hN⟩
              intro hmem
              rcases List.mem_map.mp hmem with ⟨t', ht', hname⟩
              exact absurd (by simp [hname]) (hS t' ht')
            · intro t' ht'
              rcases List.mem_cons.mp ht' with rfl | ht'
              · exact hseen
              · intro hmem
                exact (hS t' ht') (by simp [hmem])
          · rintro ⟨hA, hN, hS⟩
            rw [List.map_cons, List.nodup_cons] at hN
            refine ⟨fun t' ht' => hA t' (by simp [ht']), hN.2, ?_⟩
            intro t' ht'
            simp only [List.mem_cons]
            rintro (heq | hmem)
            · exact hN.1 (List.mem_map.mpr ⟨t', ht', heq⟩)
            · exact (hS t' (by simp [ht'])) hmem

theorem checkRawTables_ok_iff (rts : List RawTable) :
    checkRawTables rts = .ok () ↔ ∀ rt ∈ rts, rt.validate = .ok () := by
  induction rts with
  | nil => simp [checkRawTables]
  | cons rt rest ih =>
      unfold checkRawTables
      rcases hv : rt.validate with e | u
      · refine iff_of_false (by simp) ?_
        intro hall
        have hok := hall rt (by simp)
        rw [hv] at hok
        exact Except.noConfusion hok
      · cases u
        show checkRawTables rest = .ok () ↔ _
        rw [ih]
        constructor
        · intro hA rt' hrt'
          rcases List.mem_cons.mp hrt' with rfl | hrt'
          · exact hv
          · exact hA rt' hrt'
        · intro hA rt' hrt'
          exact hA rt' (by simp [hrt'])

theorem rawTable_validate_ok_iff (rt : RawTable) :
    rt.validate = .ok () ↔ RawTableOk rt := by
  unfold RawTable.validate RawTableOk
  cases hs : rt.schema with
  | some sch => exact tableOptions_validate_ok_iff sch.options
  | none => cases hp : rt.put <;> cases hd : rt.delete <;> simp

theorem table_validate_ok_iff (t : Table) : t.validate = .ok () ↔ TableOk t := by
  unfold Table.validate TableOk
  by_cases hlen : t.columns.length > 1999
  · rw [if_pos hlen]
    exact iff_of_false (by simp) (by rintro ⟨h1, -⟩; omega)
  · rw [if_neg hlen]
    have hlen' : t.columns.length ≤ 1999 := by omega
    by_cases hgn : GoodName t.name
    · simp only [(validate_name_ok_iff t.name).mpr hgn]
      rcases hvv : validate_view_name t.view_name_override with e | u
      · refine iff_of_false (by simp) ?_
        rintro ⟨-, -, hview, -⟩
        have hok := (validate_view_name_ok_iff t.view_name_override).mpr hview
        rw [hvv] at hok
        exact Except.noConfusion hok
      · cases u
        have hview := (validate_view_name_ok_iff t.view_name_override).mp hvv
        rcases hvo : t.options.validate with e | u
        · refine iff_of_false (by simp) ?_
          rintro ⟨-, -, -, hopt, -⟩
          have hok := (tableOptions_validate_ok_iff t.options).mpr hopt
          rw [hvo] at hok
          exact Except.noConfusion hok
        · cases u
          have hopt := (tableOptions_validate_ok_iff t.options).mp hvo
          rcases hcc : checkColumns [['i', 'd']] t.columns with e | r
          · refine iff_of_false (by simp) ?_
            rintro ⟨-, -, -, -, hcols, hnodup, -⟩
            have hex : ∃ r, checkColumns [['i', 'd']] t.columns = .ok r := by
              rw [checkColumns_ok_iff]
              refine ⟨hcols, hnodup, ?_⟩
              intro c hc
              simp only [List.mem_singleton]
              exact (hcols c hc).1
            rcases hex with ⟨r, hr⟩
            rw [hcc] at hr
            exact Except.noConfusion hr
          · show checkIndexes r [] t.indexes = .ok () ↔ _
            have hmem := checkColumns_mem t.columns [['i', 'd']] r hcc
            have hCC := (checkColumns_ok_iff t.columns [['i', 'd']]).mp ⟨r, hcc⟩
            rw [checkIndexes_ok_iff]
            constructor
            · rintro ⟨hA, hN, -⟩
              refine ⟨hlen', hgn, hview, hopt, hCC.1, hCC.2.1, hN, ?_⟩
              intro i hi
              refine ⟨(hA i hi).1, ?_⟩
              intro ic hic
              have hin := (hA i hi).2 ic hic
              rw [hmem ic.name] at hin
              simpa using hin
            · rintro ⟨-, -, -, -, -, -, hNodupIdx, hIdx⟩
              refine ⟨?_, hNodupIdx, by simp⟩
              intro i hi
              refine ⟨(hIdx i hi).1, ?_⟩
              intro ic hic
              rw [hmem ic.name]
              have hin := (hIdx i hi).2 ic hic
              simpa using hin
    · simp only [validate_name_err t.name hgn]
      refine iff_of_false (by simp) ?_
      rintro ⟨-, hname, -⟩
      exact hgn hname

/-- C4 (amended): `Schema::validate` returns `Ok` if and only if the amended
invariant list holds — the claim's list, extended with uniqueness of index
names within each table, containment of every indexed column in the table's
columns (or the implicit `id` column), and the local-only restrictions on
raw-table schema options. -/
theorem schema_validate_ok_iff_amended (s : Schema) :
    s.validate = .ok () ↔ AmendedValid s := by
  unfold Schema.validate AmendedValid
  rcases hct : checkTables [] s.tables with e | u
  · refine iff_of_false (by simp) ?_
    rintro ⟨hN, hT, -⟩
    have hok : checkTables [] s.tables = .ok () := by
      rw [checkTables_ok_iff]
      exact ⟨fun t ht => (table_validate_ok_iff t).mpr (hT t ht), hN, by simp⟩
    rw [hct] at hok
    exact Except.noConfusion hok
  · cases u
    show checkRawTables s.raw_tables = .ok () ↔ _
    rw [checkRawTables_ok_iff]
    have hCT := (checkTables_ok_iff s.tables []).mp hct
    constructor
    · intro hR
      exact ⟨hCT.2.1, fun t ht => (table_validate_ok_iff t).mp (hCT.1 t ht),
        fun rt hrt => (rawTable_validate_ok_iff rt).mp (hR rt hrt)⟩
    · rintro ⟨-, -, hR⟩
      exact fun rt hrt => (rawTable_validate_ok_iff rt).mpr (hR rt hrt)

/-- A table carrying two indexes with the same name (and otherwise
unremarkable). -/
def dupIndexTable : Table :=
  ⟨['t'], none, [⟨['a'], .text⟩], [⟨['i'], []⟩, ⟨['i'], []⟩],
    ⟨false, false, false, none, false⟩⟩

/-- A schema whose single table carries two indexes with the same name. -/
def dupIndexSchema : Schema :=
  ⟨[dupIndexTable], []⟩

/-- Counterexample for C4 as stated: `dupIndexSchema` satisfies every
invariant in the claim's list, yet `Schema::validate` rejects it (duplicate
index name), so `validate` does not return `Ok` exactly on the claim's
list. -/
theorem schema_validate_claim_counterexample :
    ClaimValid dupIndexSchema ∧ Schema.validate dupIndexSchema ≠ .ok () := by
  constructor
  · refine ⟨by decide, ?_, ?_⟩
    · intro t ht
      simp only [dupIndexSchema, dupIndexTable, List.mem_singleton] at ht
      subst ht
      exact ⟨by decide, by decide, trivial, by decide, by decide, by decide, by decide⟩
    · intro rt hrt
      simp [dupIndexSchema] at hrt
  · intro h
    have herr : Schema.validate dupIndexSchema = .error "Duplicate index" := rfl
    rw [herr] at h
    exact Except.noConfusion h

end PowerSync
